import Mathlib

/-!
Verification of the Aadhaar service-demand dashboard (src/app.py).

Shallow embedding conventions:
* A pandas cell of the two categorical columns (`state`, `district`) is a `Cell`:
  either an actual string (`Cell.str s`) or anything else (`Cell.na`), since the
  only test the program ever performs on those cells is `isinstance(x, str)`
  followed by a digit-pattern match; `Cell.na` covers NaN/absent and non-string
  values alike.
* The `date` column is modelled by the only datum the program extracts from it,
  its year (`Option Int`); `none` models NaT (a value `pd.to_datetime(...,
  errors="coerce")` failed to parse).
* The metric column (`service_col`, first numeric column) is a rational number.
  Because the Batteries rational arithmetic (`Rat.add` etc.) is `@[irreducible]`,
  the embedding computes with `mkRat`-based operations `qadd`/`qsum`/`qdivNat`
  (proved equal to the Mathlib operations below) so that every definition
  evaluates by `decide` on concrete inputs.
* A dataframe row is a `Row`; a dataframe is a `List Row` (plus, where column
  sets matter, a `Frame` carrying the column-name list).
* pandas `groupby` orders group keys; all claims checked here are insensitive to
  group order (they are about sets, sums, lengths and order statistics), so
  grouping uses `List.dedup` of the key stream.
-/

namespace App

/-! ### Ingestion (src/app.py lines 29-41) -/

/-- Characters removed by Python's `str.strip()` with no argument. -/
def isPySpace (c : Char) : Bool :=
  c = ' ' || c = '\t' || c = '\n' || c = '\r' || c = Char.ofNat 11 || c = Char.ofNat 12

/-- Python truthiness of `l.strip()`: some non-whitespace character remains. -/
def stripTruthy (l : List Char) : Bool :=
  l.any (fun c => !(isPySpace c))

/-- src/app.py line 34: `clean = [l for l in lines if l.strip() and l.count(",") >= 2]`.
A raw line is a list of characters. -/
def cleanLines (lines : List (List Char)) : List (List Char) :=
  lines.filter (fun l => stripTruthy l && decide (2 ≤ l.count ','))

/-- Split a raw line at commas into its comma-separated fields. -/
def splitComma : List Char → List (List Char)
  | [] => [[]]
  | c :: cs =>
    if c = ',' then [] :: splitComma cs
    else
      match splitComma cs with
      | [] => [[c]]
      | f :: rest => (c :: f) :: rest

/-! ### Data model -/

/-- A categorical cell: an actual Python string, or anything else (NaN, absent,
numeric, ...).  `valid_text` only ever distinguishes these two cases. -/
inductive Cell where
  | str : String → Cell
  | na : Cell
  deriving DecidableEq

/-- The string carried by a cell, if it is a string (`dropna`-style access). -/
def Cell.toStr : Cell → Option String
  | Cell.str s => some s
  | Cell.na => none

/-- One row of the loaded dataframe: `state`, `district`, the year of the parsed
`date` (none for NaT), and the numeric metric (`service_col`) value. -/
structure Row where
  state : Cell
  district : Cell
  date : Option Int
  metric : ℚ
  deriving DecidableEq

/-! ### Computable rational helpers

`Rat.add`, `Rat.mul`, `Rat.sub`, `Rat.inv` are `@[irreducible]` in Batteries, so
sums written with `+` do not reduce under `decide`.  The embedding therefore
uses the following `mkRat`-based operations, proved equal to the Mathlib
operations in the lemmas section. -/

/-- Computable rational addition (equals `a + b`, proved in `qadd_eq`). -/
def qadd (a b : ℚ) : ℚ :=
  mkRat (a.num * b.den + b.num * a.den) (a.den * b.den)

/-- Computable sum of a list of rationals (equals `l.sum`, proved in `qsum_eq`). -/
def qsum (l : List ℚ) : ℚ :=
  l.foldr qadd 0

/-- Computable division of a rational by a natural number (equals `a / n`,
proved in `qdivNat_eq`). -/
def qdivNat (a : ℚ) (n : ℕ) : ℚ :=
  mkRat a.num (a.den * n)

/-- Python `int()` applied to a (rational-valued) float: truncation toward zero.
`Int.tdiv` is truncating division, so `num.tdiv den` is exactly that. -/
def pyInt (q : ℚ) : ℤ :=
  q.num.tdiv q.den

/-- Spec-side notion: integer truncation toward zero (floor for nonnegative
values, ceiling for negative ones) — "not rounded". -/
def truncTowardZero (q : ℚ) : ℤ :=
  if q < 0 then ⌈q⌉ else ⌊q⌋

/-! ### Text-field validator (src/app.py lines 46-53) -/

/-- Whether `re.fullmatch` of the all-digits pattern succeeds on `s`: the string
is nonempty and consists entirely of digits. -/
def fullmatchDigits (s : String) : Bool :=
  s.length != 0 && s.toList.all (fun c => c.isDigit)

/-- src/app.py lines 46-47: a cell is valid text iff it is a string that does
not fully match the all-digits pattern.  Non-strings are not valid. -/
def valid_text : Cell → Bool
  | Cell.str s => !(fullmatchDigits s)
  | Cell.na => false

/-- src/app.py line 50: keep rows whose `state` cell is valid text. -/
def filterState (rows : List Row) : List Row :=
  rows.filter (fun r => valid_text r.state)

/-- src/app.py line 53: keep rows whose `district` cell is valid text. -/
def filterDistrict (rows : List Row) : List Row :=
  rows.filter (fun r => valid_text r.district)

/-- src/app.py lines 49-53: apply the state filter (if the `state` column
exists) and then the district filter (if the `district` column exists). -/
def validatedData (hasState hasDistrict : Bool) (rows : List Row) : List Row :=
  let r1 := if hasState then filterState rows else rows
  if hasDistrict then filterDistrict r1 else r1

/-- The same two row-removal filters applied in the opposite order. -/
def validatedDataDistrictFirst (hasState hasDistrict : Bool) (rows : List Row) : List Row :=
  let r1 := if hasDistrict then filterDistrict rows else rows
  if hasState then filterState r1 else r1

/-! ### Filter engine (src/app.py lines 63-106) -/

/-- pandas `row["state"].isin(sel)`: NaN/non-string is in no string list. -/
def stateMem (r : Row) (sel : List String) : Bool :=
  match r.state with
  | Cell.str s => sel.contains s
  | Cell.na => false

/-- pandas `row["district"].isin(sel)`. -/
def districtMem (r : Row) (sel : List String) : Bool :=
  match r.district with
  | Cell.str s => sel.contains s
  | Cell.na => false

/-- src/app.py lines 67-69: `year_range = (years[0], years[-1])` for the sorted
unique non-null years of the base dataframe, `None` if there are none. -/
def computeYearRange (rows : List Row) : Option (Int × Int) :=
  match (rows.filterMap Row.date).min?, (rows.filterMap Row.date).max? with
  | some lo, some hi => some (lo, hi)
  | _, _ => none

/-- src/app.py lines 97-100: the year-range predicate.  A NaT date compares
false on both bounds, so such rows are dropped. -/
def yearInRange (yr : Option (Int × Int)) (r : Row) : Bool :=
  match yr, r.date with
  | some (lo, hi), some y => decide (lo ≤ y) && decide (y ≤ hi)
  | some _, none => false
  | none, _ => true

/-- Transient UI state: selected states, selected cities, top-N slider value. -/
structure Selection where
  states : List String
  cities : List String
  topN : ℕ
  deriving DecidableEq

/-- src/app.py lines 94-106: year filter (if a year range exists and the `date`
column exists), then state filter (if any states selected), then city filter
(if any cities selected). -/
def applyFilters (hasDate : Bool) (yr : Option (Int × Int)) (sel : Selection)
    (rows : List Row) : List Row :=
  let f1 := if hasDate && yr.isSome then rows.filter (yearInRange yr) else rows
  let f2 := if sel.states.isEmpty then f1 else f1.filter (fun r => stateMem r sel.states)
  if sel.cities.isEmpty then f2 else f2.filter (fun r => districtMem r sel.cities)

/-- The full pipeline from the raw parsed dataframe to the Derived View:
validator (src/app.py lines 49-53), year range from the validated base
(lines 67-69), filters (lines 94-106). -/
def pipelineView (hasDate : Bool) (sel : Selection) (ds : List Row) : List Row :=
  let base := validatedData true true ds
  applyFilters hasDate (computeYearRange base) sel base

/-! ### Sorting helpers -/

/-- Byte-wise lexicographic order on character lists (Python string order). -/
def lexLe : List Char → List Char → Bool
  | [], _ => true
  | _ :: _, [] => false
  | a :: as, b :: bs => if a = b then lexLe as bs else decide (a < b)

/-- Lexicographic order on strings, as a decidable relation for sorting. -/
def strLe (s t : String) : Prop :=
  lexLe s.data t.data = true

instance : DecidableRel strLe :=
  fun s t => inferInstanceAs (Decidable (lexLe s.data t.data = true))

/-- `sorted(...)` on a list of strings (src/app.py line 86). -/
def sortStrings (l : List String) : List String :=
  List.insertionSort strLe l

/-- Descending order on (key, demand) pairs: `sort_values(ascending=False)`. -/
def demandGe (a b : String × ℚ) : Prop :=
  b.2 ≤ a.2

instance : DecidableRel demandGe :=
  fun a b => inferInstanceAs (Decidable (b.2 ≤ a.2))

instance : IsTotal (String × ℚ) demandGe :=
  ⟨fun a b => le_total b.2 a.2⟩

instance : IsTrans (String × ℚ) demandGe :=
  ⟨fun _ _ _ h1 h2 => le_trans h2 h1⟩

/-- Sort (key, demand) pairs by descending demand. -/
def sortByDemand (l : List (String × ℚ)) : List (String × ℚ) :=
  List.insertionSort demandGe l

/-! ### City-options cascade (src/app.py lines 77-88) -/

/-- src/app.py lines 77-88: if states are selected, the city options are the
sorted distinct non-null districts of rows whose state is selected; otherwise
the sorted distinct non-null districts of the whole (validated) dataframe. -/
def cityOptions (rows : List Row) (state_filter : List String) : List String :=
  let base := if state_filter.isEmpty then rows
              else rows.filter (fun r => stateMem r state_filter)
  sortStrings ((base.filterMap (fun r => Cell.toStr r.district)).dedup)

/-! ### Aggregator (src/app.py lines 113-130) -/

/-- The metric column of a view. -/
def metricsOf (view : List Row) : List ℚ :=
  view.map Row.metric

/-- src/app.py line 113: `total = int(filtered[service_col].sum())`. -/
def total (view : List Row) : ℤ :=
  pyInt (qsum (metricsOf view))

/-- src/app.py line 114: `avg = int(filtered[service_col].mean())`
(pandas mean = sum divided by count). -/
def avg (view : List Row) : ℤ :=
  pyInt (qdivNat (qsum (metricsOf view)) view.length)

/-- The distinct non-null districts of a view (`groupby("district")` keys,
`nunique()` support). -/
def districtKeys (view : List Row) : List String :=
  (view.filterMap (fun r => Cell.toStr r.district)).dedup

/-- Sum of the metric over the rows of the view whose district is `d`
(one `groupby("district")[service_col].sum()` group). -/
def sumFor (view : List Row) (d : String) : ℚ :=
  qsum (metricsOf (view.filter (fun r => decide (Cell.toStr r.district = some d))))

/-- src/app.py lines 123-127: per-district metric sums. -/
def groupSums (view : List Row) : List (String × ℚ) :=
  (districtKeys view).map (fun d => (d, sumFor view d))

/-- src/app.py lines 123-130: group by district, sum the metric, sort by
descending demand, keep the first `top_n` rows. -/
def city_df (view : List Row) (top_n : ℕ) : List (String × ℚ) :=
  (sortByDemand (groupSums view)).take top_n

/-! ### Heatmap (src/app.py lines 158-182) -/

/-- The (district, year) group key of a row; `none` if either part is null
(pandas `groupby` drops rows with a null key part). -/
def rowDY (r : Row) : Option (String × Int) :=
  match Cell.toStr r.district, r.date with
  | some d, some y => some (d, y)
  | _, _ => none

/-- Districts owning at least one (district, year) group. -/
def heatDistrictsBase (view : List Row) : List String :=
  (view.filterMap (fun r => (rowDY r).map Prod.fst)).dedup

/-- The distinct non-null years among the rows of district `d`. -/
def yearsFor (view : List Row) (d : String) : List Int :=
  ((view.filter (fun r => decide (Cell.toStr r.district = some d))).filterMap Row.date).dedup

/-- Metric sum of one (district, year) group. -/
def heatSum (view : List Row) (d : String) (y : Int) : ℚ :=
  qsum (metricsOf (view.filter
    (fun r => decide (Cell.toStr r.district = some d) && decide (r.date = some y))))

/-- src/app.py lines 161-165: `heat_df`, one record per (district, year) group
with the group's metric sum. -/
def heat_df (view : List Row) : List (String × Int × ℚ) :=
  (heatDistrictsBase view).flatMap
    (fun d => (yearsFor view d).map (fun y => (d, y, heatSum view d y)))

/-- src/app.py lines 168-171: the per-district total obtained by regrouping
`heat_df` by district and summing. -/
def heatDistrictTotal (view : List Row) (d : String) : ℚ :=
  qsum (((heat_df view).filter (fun t => decide (t.1 = d))).map (fun t => t.2.2))

/-- The (district, total) pairs behind `top_cities`. -/
def districtTotalsHeat (view : List Row) : List (String × ℚ) :=
  (heatDistrictsBase view).map (fun d => (d, heatDistrictTotal view d))

/-- src/app.py lines 168-174: the 10 districts with the largest regrouped
sums (`sort_values(ascending=False).head(10).index`). -/
def top_cities (view : List Row) : List String :=
  ((sortByDemand (districtTotalsHeat view)).take 10).map Prod.fst

/-- src/app.py line 176: restrict `heat_df` to the top-10 districts. -/
def heatRestricted (view : List Row) : List (String × Int × ℚ) :=
  (heat_df view).filter (fun t => (top_cities view).contains t.1)

/-- The pivot's row labels: the distinct districts present in the restricted
`heat_df`. -/
def pivotIndex (view : List Row) : List String :=
  ((heatRestricted view).map (fun t => t.1)).dedup

/-- The pivot's column labels: the distinct years present in the restricted
`heat_df`. -/
def pivotCols (view : List Row) : List Int :=
  ((heatRestricted view).map (fun t => t.2.1)).dedup

/-- src/app.py lines 178-182: one cell of `pivot(...).fillna(0)`: the group sum
if the (district, year) group exists, else 0. -/
def pivotCell (view : List Row) (d : String) (y : Int) : ℚ :=
  match (heatRestricted view).find? (fun t => decide (t.1 = d) && decide (t.2.1 = y)) with
  | some t => t.2.2
  | none => 0

/-! ### Frames and the presentation stage (src/app.py lines 94, 159, 204-205) -/

/-- A dataframe together with its column-name list. -/
structure Frame where
  cols : List String
  rows : List Row
  deriving DecidableEq

/-- src/app.py lines 94-106 at the frame level: boolean-mask filtering keeps
the column set unchanged. -/
def filterEngineFrame (hasDate : Bool) (yr : Option (Int × Int)) (sel : Selection)
    (base : Frame) : Frame :=
  Frame.mk base.cols (applyFilters hasDate yr sel base.rows)

/-- src/app.py line 158: the heatmap branch condition
(`"date" in filtered.columns and filtered["district"].nunique() > 1`). -/
def heatBranch (hasDate : Bool) (fr : Frame) : Bool :=
  hasDate && decide (1 < (districtKeys fr.rows).length)

/-- src/app.py lines 159 and 205: inside the heatmap branch the program writes
`filtered["year"] = filtered["date"].dt.year`, mutating the Derived View in
place, and line 205 later displays that same object; so the frame handed to the
table widget carries the extra `year` column exactly when the branch ran. -/
def displayedTable (hasDate : Bool) (fr : Frame) : Frame :=
  if heatBranch hasDate fr then Frame.mk (fr.cols ++ ["year"]) fr.rows else fr

/-! ### Dashboard control flow (src/app.py lines 94-205) -/

/-- What one interaction renders: either the empty-state message (line 109,
followed by `st.stop()`), or the aggregates. -/
inductive DashResult where
  | emptyResult : DashResult
  | rendered : ℤ → ℤ → List (String × ℚ) → Option (List (String × Int × ℚ)) → DashResult
  deriving DecidableEq

/-- src/app.py lines 94-205: if the Derived View is empty, stop with the
empty-state message before any aggregation; otherwise compute total, mean, the
city distribution, and (when the heatmap branch condition holds) the heatmap
data. -/
def runDashboard (hasDate : Bool) (sel : Selection) (ds : List Row) : DashResult :=
  let view := pipelineView hasDate sel ds
  if view.isEmpty then DashResult.emptyResult
  else
    DashResult.rendered (total view) (avg view) (city_df view sel.topN)
      (if hasDate && decide (1 < (districtKeys view).length)
       then some (heatRestricted view) else none)

/-! ### Concrete data for witnesses and counterexamples -/

/-- A well-formed row: state Goa, district Panaji, year 2021, metric 100. -/
def rowA : Row := Row.mk (Cell.str "Goa") (Cell.str "Panaji") (some 2021) 100

/-- A well-formed row: state Goa, district Panaji, year 2022, metric 50. -/
def rowB : Row := Row.mk (Cell.str "Goa") (Cell.str "Panaji") (some 2022) 50

/-- A row with an all-digits district (dropped by the validator). -/
def rowC : Row := Row.mk (Cell.str "Goa") (Cell.str "112") (some 2021) 30

/-- A well-formed row in a second district: Margao, year 2021, metric 20. -/
def rowD : Row := Row.mk (Cell.str "Goa") (Cell.str "Margao") (some 2021) 20

/-- A row whose state cell is not a string. -/
def naStateRow : Row := Row.mk Cell.na (Cell.str "Panaji") (some 2021) 30

/-- A row with a fractional metric value (a float column). -/
def halfRow : Row := Row.mk (Cell.str "Goa") (Cell.str "Panaji") (some 2021) (mkRat 1 2)

/-- The end-to-end example dataset of the spec. -/
def demoData : List Row := [rowA, rowB, rowC]

/-- A dataset with two valid districts (for heatmap claims). -/
def demoData2 : List Row := [rowA, rowB, rowC, rowD]

/-- The empty selection with the default top-N value 8. -/
def selAll : Selection := Selection.mk [] [] 8

/-- A selection of a state matching no rows. -/
def selKerala : Selection := Selection.mk ["Kerala"] [] 8

/-- A single-row dataset with a fractional metric. -/
def halfData : List Row := [halfRow]

/-- The column list of the loaded example dataframe. -/
def baseFrame : Frame :=
  Frame.mk ["state", "district", "date", "demand"] (validatedData true true demoData2)

/-! ## Lemmas: computable rational helpers agree with the Mathlib operations -/

theorem qadd_eq (a b : ℚ) : qadd a b = a + b := by
  have ha : ((a.den : ℚ)) ≠ 0 := Nat.cast_ne_zero.mpr a.den_nz
  have hb : ((b.den : ℚ)) ≠ 0 := Nat.cast_ne_zero.mpr b.den_nz
  conv_rhs => rw [← Rat.num_div_den a, ← Rat.num_div_den b]
  rw [div_add_div _ _ ha hb, qadd, Rat.mkRat_eq_div]
  push_cast
  ring_nf

theorem qsum_eq (l : List ℚ) : qsum l = l.sum := by
  induction l with
  | nil => simp [qsum]
  | cons a t ih =>
    simp only [qsum, List.foldr_cons, List.sum_cons]
    rw [show List.foldr qadd 0 t = qsum t from rfl, ih, qadd_eq]

theorem qdivNat_eq (a : ℚ) (n : ℕ) : qdivNat a n = a / (n : ℚ) := by
  rw [qdivNat, Rat.mkRat_eq_div]
  push_cast
  rw [div_mul_eq_div_div, Rat.num_div_den]

theorem pyInt_eq (q : ℚ) : pyInt q = truncTowardZero q := by
  rw [pyInt, truncTowardZero]
  rcases lt_or_le q 0 with hneg | hpos
  · rw [if_pos hneg]
    have hnum : 0 ≤ -q.num := by
      have h0 : (0 : ℚ) ≤ -q := le_of_lt (neg_pos.mpr hneg)
      have h1 := (Rat.num_nonneg (q := -q)).mpr h0
      simpa [Rat.neg_num] using h1
    have h1 : q.num.tdiv q.den = -((-q.num).tdiv q.den) := by
      rw [Int.neg_tdiv, neg_neg]
    have h2 : ((-q.num).tdiv q.den : ℤ) = (-q.num) / (q.den : ℤ) :=
      Int.tdiv_eq_ediv hnum (by positivity)
    have h3 : ⌊-q⌋ = (-q.num) / (q.den : ℤ) := by
      rw [Rat.floor_def, Rat.neg_num, Rat.neg_den]
    have h4 : ⌊-q⌋ = -⌈q⌉ := Int.floor_neg
    omega
  · rw [if_neg (not_lt.mpr hpos), Rat.floor_def]
    exact Int.tdiv_eq_ediv (Rat.num_nonneg.mpr hpos) (by positivity)

/-! ## Lemmas: ingestion -/

theorem splitComma_ne_nil (l : List Char) : splitComma l ≠ [] := by
  cases l with
  | nil => simp [splitComma]
  | cons c cs =>
    rw [splitComma]
    split
    · simp
    · cases h : splitComma cs <;> simp

theorem length_splitComma (l : List Char) :
    (splitComma l).length = l.count ',' + 1 := by
  induction l with
  | nil => simp [splitComma]
  | cons c cs ih =>
    rw [splitComma]
    by_cases hc : c = ','
    · rw [if_pos hc, hc]
      simp [List.count_cons, ih]
    · rw [if_neg hc]
      cases h : splitComma cs with
      | nil => exact absurd h (splitComma_ne_nil cs)
      | cons f rest =>
        have : (f :: rest).length = cs.count ',' + 1 := h ▸ ih
        simp only [List.length_cons] at this
        simp [List.count_cons, hc, this]

theorem mem_cleanLines {lines : List (List Char)} {l : List Char} :
    l ∈ cleanLines lines ↔
      l ∈ lines ∧ stripTruthy l = true ∧ 2 ≤ l.count ',' := by
  simp [cleanLines, List.mem_filter, and_assoc]

/-- C3: ingestion keeps exactly the raw lines that are non-blank and contain at
least 2 commas; hence every retained line comes from the input and splits into
at least 3 comma-separated fields, and a line failing the check is never
present in the retained list in any form. -/
theorem C3_line_repair (lines : List (List Char)) :
    (∀ l ∈ cleanLines lines,
        l ∈ lines ∧ stripTruthy l = true ∧ 3 ≤ (splitComma l).length)
    ∧ (∀ l, ¬(stripTruthy l = true ∧ 2 ≤ l.count ',') → l ∉ cleanLines lines) := by
  constructor
  · intro l hl
    obtain ⟨hmem, htr, hcnt⟩ := mem_cleanLines.mp hl
    refine ⟨hmem, htr, ?_⟩
    rw [length_splitComma]
    omega
  · intro l hbad hl
    obtain ⟨_, htr, hcnt⟩ := mem_cleanLines.mp hl
    exact hbad ⟨htr, hcnt⟩

theorem C3_line_repair_witness :
    (['a', ',', 'b', ',', 'c'] ∈
        cleanLines [['a', ',', 'b', ',', 'c'], [' '], ['x', ',', 'y']])
    ∧ 3 ≤ (splitComma ['a', ',', 'b', ',', 'c']).length :=
  ⟨by decide,
    ((C3_line_repair [['a', ',', 'b', ',', 'c'], [' '], ['x', ',', 'y']]).1
      ['a', ',', 'b', ',', 'c'] (by decide)).2.2⟩

/-! ## Lemmas: validator -/

theorem mem_filterState {rows : List Row} {r : Row} :
    r ∈ filterState rows ↔ r ∈ rows ∧ valid_text r.state = true := by
  simp [filterState, List.mem_filter]

theorem mem_filterDistrict {rows : List Row} {r : Row} :
    r ∈ filterDistrict rows ↔ r ∈ rows ∧ valid_text r.district = true := by
  simp [filterDistrict, List.mem_filter]

theorem mem_validatedData {rows : List Row} {r : Row}
    (h : r ∈ validatedData true true rows) :
    r ∈ rows ∧ valid_text r.state = true ∧ valid_text r.district = true := by
  rw [validatedData] at h
  simp only [if_true] at h
  obtain ⟨h1, hd⟩ := mem_filterDistrict.mp h
  obtain ⟨h2, hs⟩ := mem_filterState.mp h1
  exact ⟨h2, hs, hd⟩

theorem valid_text_eq_true {c : Cell} (h : valid_text c = true) :
    ∃ s, c = Cell.str s ∧ fullmatchDigits s = false := by
  cases c with
  | str s =>
    refine ⟨s, rfl, ?_⟩
    simpa [valid_text] using h
  | na => simp [valid_text] at h

/-- C4: after applying both field filters — in either order — every surviving
row's state value, if a string, does not fully match the all-digits pattern,
and likewise for its district value. -/
theorem C4_validator_invariant (hs hd : Bool) (rows : List Row) (r : Row)
    (hmem : r ∈ validatedData hs hd rows ∨ r ∈ validatedDataDistrictFirst hs hd rows) :
    (hs = true → ∀ s, r.state = Cell.str s → fullmatchDigits s = false)
    ∧ (hd = true → ∀ s, r.district = Cell.str s → fullmatchDigits s = false) := by
  have keyD : ∀ rows' : List Row, r ∈ (if hd then filterDistrict rows' else rows') →
      r ∈ rows' ∧ (hd = true → valid_text r.district = true) := by
    intro rows' h
    cases hd
    · exact ⟨h, fun hc => by cases hc⟩
    · exact ⟨(mem_filterDistrict.mp h).1, fun _ => (mem_filterDistrict.mp h).2⟩
  have keyS : ∀ rows' : List Row, r ∈ (if hs then filterState rows' else rows') →
      r ∈ rows' ∧ (hs = true → valid_text r.state = true) := by
    intro rows' h
    cases hs
    · exact ⟨h, fun hc => by cases hc⟩
    · exact ⟨(mem_filterState.mp h).1, fun _ => (mem_filterState.mp h).2⟩
  have key : (hs = true → valid_text r.state = true)
      ∧ (hd = true → valid_text r.district = true) := by
    rcases hmem with h | h
    · rw [validatedData] at h
      obtain ⟨h1, hdv⟩ := keyD _ h
      exact ⟨(keyS _ h1).2, hdv⟩
    · rw [validatedDataDistrictFirst] at h
      obtain ⟨h1, hsv⟩ := keyS _ h
      exact ⟨hsv, (keyD _ h1).2⟩
  constructor
  · intro h1 s hse
    obtain ⟨s', hs', hf⟩ := valid_text_eq_true (key.1 h1)
    rw [hse] at hs'
    cases hs'
    exact hf
  · intro h1 s hse
    obtain ⟨s', hs', hf⟩ := valid_text_eq_true (key.2 h1)
    rw [hse] at hs'
    cases hs'
    exact hf

theorem C4_validator_invariant_witness :
    (rowA ∈ validatedData true true demoData ∨
      rowA ∈ validatedDataDistrictFirst true true demoData)
    ∧ (∀ s, rowA.state = Cell.str s → fullmatchDigits s = false) :=
  ⟨Or.inl (by decide),
    (C4_validator_invariant true true demoData rowA (Or.inl (by decide))).1 rfl⟩

/-- C5 counterexample: a row whose state cell is not a string is a member of the
input Dataset but is *not* retained by the Validator — the code treats
non-string values as invalid and removes the row, contradicting the claim that
such rows are left untouched. -/
theorem C5_counterexample :
    naStateRow ∈ [naStateRow] ∧ naStateRow.state = Cell.na
    ∧ naStateRow ∉ validatedData true true [naStateRow] := by
  decide

/-- C5 (amended): for every row of the Dataset whose state or district value is
absent or not a string, the Validator (applied with both categorical columns
present) *removes* that row: non-string values are treated as invalid. -/
theorem C5_amended (rows : List Row) (r : Row) (_hmem : r ∈ rows)
    (hna : r.state = Cell.na ∨ r.district = Cell.na) :
    r ∉ validatedData true true rows := by
  intro hr
  obtain ⟨_, hs, hd⟩ := mem_validatedData hr
  rcases hna with h | h
  · rw [h] at hs
    simp [valid_text] at hs
  · rw [h] at hd
    simp [valid_text] at hd

theorem C5_amended_witness :
    naStateRow ∈ [naStateRow, rowA]
    ∧ (naStateRow.state = Cell.na ∨ naStateRow.district = Cell.na)
    ∧ naStateRow ∉ validatedData true true [naStateRow, rowA] :=
  ⟨by decide, Or.inl (by decide),
    C5_amended [naStateRow, rowA] naStateRow (by decide) (Or.inl (by decide))⟩

/-! ## C1: displayed total and average -/

/-- C1: for every non-empty Derived View, the displayed total is the metric-sum
truncated toward zero, and the displayed average is the arithmetic mean
(sum divided by row count) truncated toward zero — truncation, not rounding. -/
theorem C1_metrics_truncation (view : List Row) (_hne : view ≠ []) :
    total view = truncTowardZero (metricsOf view).sum
    ∧ avg view = truncTowardZero ((metricsOf view).sum / (view.length : ℚ)) := by
  refine ⟨?_, ?_⟩
  · rw [total, pyInt_eq, qsum_eq]
  · rw [avg, pyInt_eq, qdivNat_eq, qsum_eq]

theorem C1_metrics_truncation_witness :
    pipelineView true selAll demoData ≠ []
    ∧ (total (pipelineView true selAll demoData)
          = truncTowardZero (metricsOf (pipelineView true selAll demoData)).sum
       ∧ avg (pipelineView true selAll demoData)
          = truncTowardZero ((metricsOf (pipelineView true selAll demoData)).sum
              / ((pipelineView true selAll demoData).length : ℚ))) :=
  ⟨by decide, C1_metrics_truncation (pipelineView true selAll demoData) (by decide)⟩

/-! ## C2: city-options cascade -/

theorem mem_sortStrings {l : List String} {s : String} :
    s ∈ sortStrings l ↔ s ∈ l :=
  (List.perm_insertionSort strLe l).mem_iff

theorem toStr_eq_some {c : Cell} {s : String} :
    Cell.toStr c = some s ↔ c = Cell.str s := by
  cases c <;> simp [Cell.toStr]

theorem stateMem_iff {r : Row} {S : List String} :
    stateMem r S = true ↔ ∃ s, r.state = Cell.str s ∧ s ∈ S := by
  cases h : r.state with
  | str s => simp [stateMem, h]
  | na => simp [stateMem, h]

theorem mem_cityOptions {rows : List Row} {S : List String} {c : String} :
    c ∈ cityOptions rows S ↔
      ∃ r ∈ (if S.isEmpty then rows else rows.filter (fun r => stateMem r S)),
        r.district = Cell.str c := by
  rw [cityOptions, mem_sortStrings, List.mem_dedup]
  simp [List.mem_filterMap, toStr_eq_some]

/-- C2: for every validated Dataset and state selection S, the city-options
list contains exactly the distinct district values among rows whose state is in
S when S is non-empty, and the distinct district values of the whole validated
Dataset when S is empty. -/
theorem C2_city_cascade (ds : List Row) (S : List String) (c : String) :
    (S ≠ [] →
      (c ∈ cityOptions (validatedData true true ds) S ↔
        ∃ r ∈ validatedData true true ds,
          (∃ s, r.state = Cell.str s ∧ s ∈ S) ∧ r.district = Cell.str c))
    ∧ (S = [] →
      (c ∈ cityOptions (validatedData true true ds) S ↔
        ∃ r ∈ validatedData true true ds, r.district = Cell.str c)) := by
  constructor
  · intro hS
    have hSe : S.isEmpty = false := by
      cases S with
      | nil => exact absurd rfl hS
      | cons a t => rfl
    rw [mem_cityOptions, hSe]
    simp only [Bool.false_eq_true, if_false]
    constructor
    · rintro ⟨r, hr, hdist⟩
      rw [List.mem_filter] at hr
      exact ⟨r, hr.1, stateMem_iff.mp hr.2, hdist⟩
    · rintro ⟨r, hr, hst, hdist⟩
      exact ⟨r, List.mem_filter.mpr ⟨hr, stateMem_iff.mpr hst⟩, hdist⟩
  · intro hS
    subst hS
    rw [mem_cityOptions]
    simp

theorem C2_city_cascade_witness :
    (["Goa"] : List String) ≠ []
    ∧ "Margao" ∈ cityOptions (validatedData true true demoData2) ["Goa"] :=
  ⟨by decide,
    ((C2_city_cascade demoData2 ["Goa"] "Margao").1 (by decide)).mpr
      ⟨rowD, by decide, ⟨"Goa", rfl, by decide⟩, rfl⟩⟩

/-! ## C9: empty Derived View short-circuits to the empty-state message -/

/-- C9: whenever the Derived View of a Filter Selection has zero rows, the
dashboard renders the empty-state result, and no total/mean/city-distribution/
heatmap aggregate is computed for that selection. -/
theorem C9_empty_result (hasDate : Bool) (sel : Selection) (ds : List Row)
    (h : pipelineView hasDate sel ds = []) :
    runDashboard hasDate sel ds = DashResult.emptyResult := by
  simp [runDashboard, h]

theorem C9_empty_result_witness :
    pipelineView true selKerala demoData = []
    ∧ runDashboard true selKerala demoData = DashResult.emptyResult :=
  ⟨by decide, C9_empty_result true selKerala demoData (by decide)⟩

/-! ## Lemmas: partitioning a sum by group keys (groupby-sum semantics) -/

theorem sum_filter_split (p : Row → Bool) (f : Row → ℚ) (l : List Row) :
    ((l.filter p).map f).sum + ((l.filter (fun a => !(p a))).map f).sum
      = (l.map f).sum := by
  induction l with
  | nil => simp
  | cons a t ih =>
    cases h : p a <;>
      simp [List.filter_cons, h] <;>
      linarith [ih]

theorem partition_sum {κ : Type} [DecidableEq κ] (key : Row → Option κ) (f : Row → ℚ) :
    ∀ (keys : List κ) (l : List Row), keys.Nodup →
      (∀ a ∈ l, ∃ k, key a = some k ∧ k ∈ keys) →
      (keys.map (fun k => ((l.filter (fun a => decide (key a = some k))).map f).sum)).sum
        = (l.map f).sum := by
  intro keys
  induction keys with
  | nil =>
    intro l _ hcov
    have hl : l = [] := by
      cases l with
      | nil => rfl
      | cons a t =>
        obtain ⟨k, _, hk⟩ := hcov a (List.mem_cons_self a t)
        exact absurd hk (List.not_mem_nil k)
    subst hl
    simp
  | cons k ks ih =>
    intro l hnd hcov
    have hk_not : k ∉ ks := (List.nodup_cons.mp hnd).1
    have hnd' : ks.Nodup := (List.nodup_cons.mp hnd).2
    have hrest : ∀ k' ∈ ks,
        l.filter (fun a => decide (key a = some k'))
          = (l.filter (fun a => !(decide (key a = some k)))).filter
              (fun a => decide (key a = some k')) := by
      intro k' hk'
      rw [List.filter_filter]
      apply List.filter_congr
      intro a _
      by_cases hka : key a = some k'
      · have hkk : k' ≠ k := fun he => hk_not (he ▸ hk')
        simp [hka, Option.some.injEq, hkk]
      · simp [hka]
    have hcov' : ∀ a ∈ l.filter (fun a => !(decide (key a = some k))),
        ∃ k', key a = some k' ∧ k' ∈ ks := by
      intro a ha
      rw [List.mem_filter] at ha
      obtain ⟨k', hk', hmem⟩ := hcov a ha.1
      cases List.mem_cons.mp hmem with
      | inl he =>
        exfalso
        have := ha.2
        rw [hk', he] at this
        simp at this
      | inr hmem' => exact ⟨k', hk', hmem'⟩
    simp only [List.map_cons, List.sum_cons]
    have hmapeq : ks.map
          (fun k' => ((l.filter (fun a => decide (key a = some k'))).map f).sum)
        = ks.map (fun k' =>
            (((l.filter (fun a => !(decide (key a = some k)))).filter
                (fun a => decide (key a = some k'))).map f).sum) := by
      apply List.map_congr_left
      intro k' hk'
      rw [hrest k' hk']
    rw [hmapeq, ih _ hnd' hcov']
    exact sum_filter_split (fun a => decide (key a = some k)) f l

/-! ## Lemmas: sorting by descending demand -/

theorem sortByDemand_perm (l : List (String × ℚ)) : (sortByDemand l).Perm l :=
  List.perm_insertionSort demandGe l

theorem sortByDemand_sorted (l : List (String × ℚ)) :
    List.Sorted demandGe (sortByDemand l) :=
  List.sorted_insertionSort demandGe l

theorem sum_take_le (l : List (String × ℚ)) (n : ℕ)
    (hpos : ∀ p ∈ l, 0 ≤ p.2) :
    ((l.take n).map (fun p => p.2)).sum ≤ (l.map (fun p => p.2)).sum := by
  conv_rhs => rw [← List.take_append_drop n l]
  rw [List.map_append, List.sum_append]
  have hdrop : 0 ≤ ((l.drop n).map (fun p => p.2)).sum := by
    apply List.sum_nonneg
    intro x hx
    obtain ⟨p, hp, he⟩ := List.mem_map.mp hx
    exact he ▸ hpos p (List.mem_of_mem_drop hp)
  linarith

/-! ## Lemmas: the city grouping -/

theorem mem_districtKeys {view : List Row} {d : String} :
    d ∈ districtKeys view ↔ ∃ r ∈ view, r.district = Cell.str d := by
  rw [districtKeys, List.mem_dedup]
  simp [List.mem_filterMap, toStr_eq_some]

theorem districtKeys_nodup (view : List Row) : (districtKeys view).Nodup :=
  List.nodup_dedup _

theorem sumFor_eq (view : List Row) (d : String) :
    sumFor view d
      = ((view.filter (fun r => decide (Cell.toStr r.district = some d))).map
          Row.metric).sum := by
  rw [sumFor, qsum_eq, metricsOf]

theorem groupSums_sum (view : List Row)
    (hstr : ∀ r ∈ view, ∃ s, r.district = Cell.str s) :
    ((groupSums view).map (fun p => p.2)).sum = (metricsOf view).sum := by
  rw [groupSums, List.map_map, metricsOf]
  have hmapeq : (districtKeys view).map
        ((fun p : String × ℚ => p.2) ∘ (fun d => (d, sumFor view d)))
      = (districtKeys view).map (fun d =>
          ((view.filter (fun r => decide (Cell.toStr r.district = some d))).map
            Row.metric).sum) := by
    apply List.map_congr_left
    intro d _
    simp [sumFor_eq]
  rw [hmapeq]
  apply partition_sum (fun r => Cell.toStr r.district) Row.metric (districtKeys view) view
    (districtKeys_nodup view)
  intro r hr
  obtain ⟨s, hs⟩ := hstr r hr
  exact ⟨s, toStr_eq_some.mpr hs, mem_districtKeys.mpr ⟨r, hr, hs⟩⟩

/-! ## Lemmas: pipeline provenance -/

theorem mem_of_ite_filter {l : List Row} {r : Row} {c : Bool} {p : Row → Bool}
    (h : r ∈ if c then l.filter p else l) : r ∈ l := by
  cases c
  · exact h
  · exact (List.mem_filter.mp h).1

theorem mem_of_ite_filter' {l : List Row} {r : Row} {c : Bool} {p : Row → Bool}
    (h : r ∈ if c then l else l.filter p) : r ∈ l := by
  cases c
  · exact (List.mem_filter.mp h).1
  · exact h

theorem mem_applyFilters {hasDate : Bool} {yr : Option (Int × Int)} {sel : Selection}
    {rows : List Row} {r : Row} (h : r ∈ applyFilters hasDate yr sel rows) :
    r ∈ rows := by
  rw [applyFilters] at h
  exact mem_of_ite_filter (mem_of_ite_filter' (mem_of_ite_filter' h))

theorem mem_pipelineView {hasDate : Bool} {sel : Selection} {ds : List Row} {r : Row}
    (h : r ∈ pipelineView hasDate sel ds) :
    r ∈ ds ∧ valid_text r.state = true ∧ valid_text r.district = true := by
  rw [pipelineView] at h
  exact mem_validatedData (mem_applyFilters h)

theorem view_district_str {hasDate : Bool} {sel : Selection} {ds : List Row} {r : Row}
    (h : r ∈ pipelineView hasDate sel ds) : ∃ s, r.district = Cell.str s := by
  obtain ⟨_, _, hd⟩ := mem_pipelineView h
  obtain ⟨s, hs, _⟩ := valid_text_eq_true hd
  exact ⟨s, hs⟩

/-! ## C6: the city-distribution sums versus the displayed total -/

theorem natSum_of_natValued {l : List ℚ} (h : ∀ q ∈ l, ∃ n : ℕ, q = (n : ℚ)) :
    ∃ N : ℕ, l.sum = (N : ℚ) := by
  induction l with
  | nil => exact ⟨0, by simp⟩
  | cons a t ih =>
    obtain ⟨n, hn⟩ := h a (List.mem_cons_self a t)
    obtain ⟨N, hN⟩ := ih (fun q hq => h q (List.mem_cons_of_mem a hq))
    refine ⟨n + N, ?_⟩
    rw [List.sum_cons, hn, hN]
    push_cast
    ring

theorem truncTowardZero_natCast (N : ℕ) : truncTowardZero ((N : ℕ) : ℚ) = N := by
  rw [truncTowardZero, if_neg (not_lt.mpr (by positivity))]
  exact_mod_cast Int.floor_natCast (α := ℚ) N

theorem city_df_sum_le (view : List Row) (N : ℕ)
    (hstr : ∀ r ∈ view, ∃ s, r.district = Cell.str s)
    (hnat : ∀ r ∈ view, ∃ n : ℕ, r.metric = (n : ℚ)) :
    ((city_df view N).map (fun p => p.2)).sum ≤ (total view : ℚ)
    ∧ ((districtKeys view).length ≤ N →
        ((city_df view N).map (fun p => p.2)).sum = (total view : ℚ)) := by
  have hns : ∀ q ∈ metricsOf view, ∃ n : ℕ, q = (n : ℚ) := by
    intro q hq
    obtain ⟨r, hr, he⟩ := List.mem_map.mp hq
    exact he ▸ hnat r hr
  obtain ⟨M, hM⟩ := natSum_of_natValued hns
  have htot : ((total view : ℤ) : ℚ) = (metricsOf view).sum := by
    rw [total, pyInt_eq, qsum_eq, hM, truncTowardZero_natCast]
    push_cast
    ring
  have hpos : ∀ p ∈ groupSums view, 0 ≤ p.2 := by
    intro p hp
    rw [groupSums] at hp
    obtain ⟨d, _, he⟩ := List.mem_map.mp hp
    rw [← he]
    show (0 : ℚ) ≤ sumFor view d
    rw [sumFor_eq]
    apply List.sum_nonneg
    intro x hx
    obtain ⟨r, hr, hxe⟩ := List.mem_map.mp hx
    obtain ⟨n, hn⟩ := hnat r (List.mem_filter.mp hr).1
    rw [← hxe, hn]
    positivity
  have hsorted_pos : ∀ p ∈ sortByDemand (groupSums view), 0 ≤ p.2 :=
    fun p hp => hpos p ((sortByDemand_perm (groupSums view)).mem_iff.mp hp)
  have hsum_sorted : ((sortByDemand (groupSums view)).map (fun p => p.2)).sum
      = ((groupSums view).map (fun p => p.2)).sum :=
    ((sortByDemand_perm (groupSums view)).map (fun p => p.2)).sum_eq
  have hgs := groupSums_sum view hstr
  constructor
  · rw [city_df]
    calc (((sortByDemand (groupSums view)).take N).map (fun p => p.2)).sum
        ≤ ((sortByDemand (groupSums view)).map (fun p => p.2)).sum :=
          sum_take_le (sortByDemand (groupSums view)) N hsorted_pos
      _ = (metricsOf view).sum := by rw [hsum_sorted, hgs]
      _ = (total view : ℚ) := htot.symm
  · intro hlen
    rw [city_df, List.take_of_length_le ?hl]
    case hl =>
      rw [(sortByDemand_perm (groupSums view)).length_eq, groupSums, List.length_map]
      exact hlen
    rw [hsum_sorted, hgs]
    exact htot.symm

/-- C6 counterexample: a Derived View consisting of one row with a fractional
metric value.  The city-distribution table sums to one half, but the displayed
total truncates to zero, so the table sum exceeds the displayed total and the
claimed inequality fails. -/
theorem C6_counterexample :
    ¬ (((city_df (pipelineView true selAll halfData) 8).map (fun p => p.2)).sum
        ≤ (total (pipelineView true selAll halfData) : ℚ)) := by
  have h1 : city_df (pipelineView true selAll halfData) 8
      = [("Panaji", mkRat 1 2)] := by decide
  have h2 : total (pipelineView true selAll halfData) = 0 := by decide
  rw [h1, h2]
  simp only [List.map_cons, List.map_nil, List.sum_cons, List.sum_nil, add_zero,
    Int.cast_zero, not_le]
  rw [Rat.mkRat_eq_div]
  norm_num

/-- C6 (amended): for every non-empty Derived View whose metric column holds
nonnegative integer (count) values, the sum of the Demand column of the
city-distribution table is at most the displayed total, with equality whenever
top-N does not truncate the list of distinct districts.  (The original claim
fails for fractional metric values because the displayed total is truncated;
see the counterexample.) -/
theorem C6_city_distribution_sum (ds : List Row) (sel : Selection) (hasDate : Bool) (N : ℕ)
    (hnat : ∀ r ∈ ds, ∃ n : ℕ, r.metric = (n : ℚ))
    (_hne : pipelineView hasDate sel ds ≠ []) :
    ((city_df (pipelineView hasDate sel ds) N).map (fun p => p.2)).sum
        ≤ (total (pipelineView hasDate sel ds) : ℚ)
    ∧ ((districtKeys (pipelineView hasDate sel ds)).length ≤ N →
        ((city_df (pipelineView hasDate sel ds) N).map (fun p => p.2)).sum
          = (total (pipelineView hasDate sel ds) : ℚ)) := by
  apply city_df_sum_le
  · intro r hr
    exact view_district_str hr
  · intro r hr
    exact hnat r (mem_pipelineView hr).1

theorem C6_city_distribution_sum_witness :
    (∀ r ∈ demoData, ∃ n : ℕ, r.metric = (n : ℚ))
    ∧ pipelineView true selAll demoData ≠ []
    ∧ ((city_df (pipelineView true selAll demoData) 8).map (fun p => p.2)).sum
        ≤ (total (pipelineView true selAll demoData) : ℚ) :=
  ⟨by
      intro r hr
      fin_cases hr
      · exact ⟨100, by norm_num [rowA]⟩
      · exact ⟨50, by norm_num [rowB]⟩
      · exact ⟨30, by norm_num [rowC]⟩,
    by decide,
    (C6_city_distribution_sum demoData selAll true 8
      (by
        intro r hr
        fin_cases hr
        · exact ⟨100, by norm_num [rowA]⟩
        · exact ⟨50, by norm_num [rowB]⟩
        · exact ⟨30, by norm_num [rowC]⟩)
      (by decide)).1⟩

/-! ## Lemmas: heat_df structure -/

theorem filter_flatMap {α β : Type} (l : List α) (f : α → List β) (p : β → Bool) :
    (l.flatMap f).filter p = l.flatMap (fun a => (f a).filter p) := by
  induction l with
  | nil => rfl
  | cons a t ih => rw [List.flatMap_cons, List.flatMap_cons, List.filter_append, ih]

theorem flatMap_congr_left {α β : Type} {l : List α} {f g : α → List β}
    (h : ∀ a ∈ l, f a = g a) : l.flatMap f = l.flatMap g := by
  induction l with
  | nil => rfl
  | cons a t ih =>
    rw [List.flatMap_cons, List.flatMap_cons, h a (List.mem_cons_self a t),
      ih (fun a ha => h a (List.mem_cons_of_mem _ ha))]

theorem flatMap_eq_single {β : Type} (l : List String) (hnd : l.Nodup) (d : String)
    (g : String → List β) :
    l.flatMap (fun a => if a = d then g a else []) = if d ∈ l then g d else [] := by
  induction l with
  | nil => simp
  | cons a t ih =>
    rw [List.flatMap_cons]
    by_cases had : a = d
    · subst had
      have hnotin : a ∉ t := (List.nodup_cons.mp hnd).1
      rw [if_pos rfl, ih (List.nodup_cons.mp hnd).2, if_neg hnotin,
        if_pos (List.mem_cons_self a t)]
      simp
    · rw [if_neg had, List.nil_append, ih (List.nodup_cons.mp hnd).2]
      have hmem : (d ∈ a :: t) ↔ (d ∈ t) := by
        rw [List.mem_cons]
        exact or_iff_right (fun he => had he.symm)
      by_cases hdt : d ∈ t
      · rw [if_pos hdt, if_pos (hmem.mpr hdt)]
      · rw [if_neg hdt, if_neg (fun hc => hdt (hmem.mp hc))]

theorem rowDY_eq_some {r : Row} {d : String} {y : Int} :
    rowDY r = some (d, y) ↔ r.district = Cell.str d ∧ r.date = some y := by
  cases hd : r.district <;> cases hdt : r.date <;>
    simp [rowDY, Cell.toStr, hd, hdt]

theorem mem_heatDistrictsBase {view : List Row} {d : String} :
    d ∈ heatDistrictsBase view ↔
      ∃ r ∈ view, r.district = Cell.str d ∧ ∃ y, r.date = some y := by
  rw [heatDistrictsBase, List.mem_dedup]
  simp only [List.mem_filterMap, Option.map_eq_some']
  constructor
  · rintro ⟨r, hr, ⟨d', y⟩, hdy, hfst⟩
    obtain rfl : d' = d := hfst
    obtain ⟨hdist, hdate⟩ := rowDY_eq_some.mp hdy
    exact ⟨r, hr, hdist, y, hdate⟩
  · rintro ⟨r, hr, hdist, y, hdate⟩
    exact ⟨r, hr, (d, y), rowDY_eq_some.mpr ⟨hdist, hdate⟩, rfl⟩

theorem mem_yearsFor {view : List Row} {d : String} {y : Int} :
    y ∈ yearsFor view d ↔ ∃ r ∈ view, r.district = Cell.str d ∧ r.date = some y := by
  rw [yearsFor, List.mem_dedup]
  simp only [List.mem_filterMap, List.mem_filter, decide_eq_true_eq, toStr_eq_some]
  constructor
  · rintro ⟨r, ⟨hr, hdist⟩, hdate⟩
    exact ⟨r, hr, hdist, hdate⟩
  · rintro ⟨r, hr, hdist, hdate⟩
    exact ⟨r, ⟨hr, hdist⟩, hdate⟩

theorem mem_heat_df {view : List Row} {t : String × Int × ℚ} (h : t ∈ heat_df view) :
    t.1 ∈ heatDistrictsBase view ∧ t.2.1 ∈ yearsFor view t.1
      ∧ t.2.2 = heatSum view t.1 t.2.1 := by
  rw [heat_df] at h
  obtain ⟨d, hd, ht⟩ := List.mem_flatMap.mp h
  obtain ⟨y, hy, he⟩ := List.mem_map.mp ht
  subst he
  exact ⟨hd, hy, rfl⟩

theorem heatDistrictsBase_nodup (view : List Row) : (heatDistrictsBase view).Nodup :=
  List.nodup_dedup _

theorem heat_df_filter_eq (view : List Row) (d : String) :
    (heat_df view).filter (fun t => decide (t.1 = d))
      = if d ∈ heatDistrictsBase view then
          (yearsFor view d).map (fun y => (d, y, heatSum view d y)) else [] := by
  rw [heat_df, filter_flatMap]
  have hblocks : ∀ a ∈ heatDistrictsBase view,
      ((yearsFor view a).map (fun y => (a, y, heatSum view a y))).filter
          (fun t => decide (t.1 = d))
        = if a = d then (yearsFor view a).map (fun y => (a, y, heatSum view a y))
          else [] := by
    intro a _
    by_cases had : a = d
    · subst had
      rw [if_pos rfl, List.filter_eq_self.mpr]
      intro t ht
      obtain ⟨y, _, he⟩ := List.mem_map.mp ht
      rw [← he]
      simp
    · rw [if_neg had, List.filter_eq_nil_iff.mpr]
      intro t ht
      obtain ⟨y, _, he⟩ := List.mem_map.mp ht
      rw [← he]
      simp [had]
  rw [flatMap_congr_left hblocks]
  have := flatMap_eq_single (heatDistrictsBase view) (heatDistrictsBase_nodup view) d
    (fun a => (yearsFor view a).map (fun y => (a, y, heatSum view a y)))
  rw [this]

theorem heatDistrictTotal_eq (view : List Row) (d : String)
    (hd : d ∈ heatDistrictsBase view) :
    heatDistrictTotal view d
      = ((yearsFor view d).map (fun y => heatSum view d y)).sum := by
  rw [heatDistrictTotal, qsum_eq, heat_df_filter_eq, if_pos hd, List.map_map]
  rfl

theorem heatDistrictTotal_eq_sumFor (view : List Row)
    (hdate : ∀ r ∈ view, ∃ y, r.date = some y) (d : String)
    (hd : d ∈ heatDistrictsBase view) :
    heatDistrictTotal view d = sumFor view d := by
  rw [heatDistrictTotal_eq view d hd, sumFor_eq]
  have hfil : ∀ y : Int,
      view.filter (fun r =>
          decide (Cell.toStr r.district = some d) && decide (r.date = some y))
        = (view.filter (fun r => decide (Cell.toStr r.district = some d))).filter
            (fun r => decide (r.date = some y)) := by
    intro y
    rw [List.filter_filter]
    apply List.filter_congr
    intro a _
    exact (Bool.and_comm _ _).symm
  have hmap : (yearsFor view d).map (fun y => heatSum view d y)
      = (yearsFor view d).map (fun y =>
          (((view.filter (fun r => decide (Cell.toStr r.district = some d))).filter
              (fun r => decide (r.date = some y))).map Row.metric).sum) := by
    apply List.map_congr_left
    intro y _
    rw [heatSum, qsum_eq, metricsOf, hfil y]
  rw [hmap]
  apply partition_sum Row.date Row.metric (yearsFor view d) _ (List.nodup_dedup _)
  intro a ha
  obtain ⟨y, hy⟩ := hdate a (List.mem_filter.mp ha).1
  refine ⟨y, hy, ?_⟩
  rw [yearsFor, List.mem_dedup]
  exact List.mem_filterMap.mpr ⟨a, ha, hy⟩

theorem heatDistrictsBase_eq (view : List Row)
    (hdate : ∀ r ∈ view, ∃ y, r.date = some y) :
    heatDistrictsBase view = districtKeys view := by
  rw [heatDistrictsBase, districtKeys]
  congr 1
  apply List.filterMap_congr
  intro r hr
  obtain ⟨y, hy⟩ := hdate r hr
  cases hdist : r.district with
  | str s => simp [rowDY, Cell.toStr, hdist, hy]
  | na => simp [rowDY, Cell.toStr, hdist]

/-! ## Lemmas: top_cities characterization -/

theorem mem_districtTotalsHeat {view : List Row} {p : String × ℚ} :
    p ∈ districtTotalsHeat view ↔
      p.1 ∈ heatDistrictsBase view ∧ p.2 = heatDistrictTotal view p.1 := by
  rw [districtTotalsHeat]
  constructor
  · intro hp
    obtain ⟨d, hd, he⟩ := List.mem_map.mp hp
    subst he
    exact ⟨hd, rfl⟩
  · rintro ⟨h1, h2⟩
    refine List.mem_map.mpr ⟨p.1, h1, ?_⟩
    rw [← h2]

theorem top_cities_subset {view : List Row} {d : String} (h : d ∈ top_cities view) :
    d ∈ heatDistrictsBase view := by
  rw [top_cities] at h
  obtain ⟨p, hp, he⟩ := List.mem_map.mp h
  have hp' : p ∈ districtTotalsHeat view :=
    (sortByDemand_perm (districtTotalsHeat view)).mem_iff.mp (List.mem_of_mem_take hp)
  rw [← he]
  exact (mem_districtTotalsHeat.mp hp').1

theorem top_cities_length (view : List Row) :
    (top_cities view).length = min 10 (heatDistrictsBase view).length := by
  rw [top_cities, List.length_map, List.length_take,
    (sortByDemand_perm (districtTotalsHeat view)).length_eq, districtTotalsHeat,
    List.length_map]

theorem map_fst_districtTotalsHeat (view : List Row) :
    (districtTotalsHeat view).map Prod.fst = heatDistrictsBase view := by
  rw [districtTotalsHeat, List.map_map]
  exact List.map_id _

theorem top_cities_nodup (view : List Row) : (top_cities view).Nodup := by
  have hperm : ((sortByDemand (districtTotalsHeat view)).map Prod.fst).Perm
      (heatDistrictsBase view) := by
    have h := (sortByDemand_perm (districtTotalsHeat view)).map Prod.fst
    rwa [map_fst_districtTotalsHeat] at h
  have hnd : ((sortByDemand (districtTotalsHeat view)).map Prod.fst).Nodup :=
    hperm.nodup_iff.mpr (heatDistrictsBase_nodup view)
  rw [top_cities, List.map_take]
  exact List.Nodup.sublist (List.take_sublist _ _) hnd

theorem top_cities_dominant (view : List Row) {d d' : String}
    (hd : d ∈ top_cities view) (hd' : d' ∈ heatDistrictsBase view)
    (hnot : d' ∉ top_cities view) :
    heatDistrictTotal view d' ≤ heatDistrictTotal view d := by
  have hsorted := sortByDemand_sorted (districtTotalsHeat view)
  rw [top_cities] at hd hnot
  obtain ⟨p, hp_take, hp1⟩ := List.mem_map.mp hd
  have hp_mem : p ∈ districtTotalsHeat view :=
    (sortByDemand_perm (districtTotalsHeat view)).mem_iff.mp (List.mem_of_mem_take hp_take)
  have hp2 : p.2 = heatDistrictTotal view p.1 := (mem_districtTotalsHeat.mp hp_mem).2
  have hq_sorted : ((d', heatDistrictTotal view d') : String × ℚ)
      ∈ sortByDemand (districtTotalsHeat view) :=
    (sortByDemand_perm (districtTotalsHeat view)).mem_iff.mpr
      (mem_districtTotalsHeat.mpr ⟨hd', rfl⟩)
  have hq_split : ((d', heatDistrictTotal view d') : String × ℚ)
      ∈ (sortByDemand (districtTotalsHeat view)).take 10
        ++ (sortByDemand (districtTotalsHeat view)).drop 10 := by
    rw [List.take_append_drop]
    exact hq_sorted
  have hq_drop : ((d', heatDistrictTotal view d') : String × ℚ)
      ∈ (sortByDemand (districtTotalsHeat view)).drop 10 := by
    rcases List.mem_append.mp hq_split with h | h
    · exact absurd (List.mem_map.mpr ⟨_, h, rfl⟩) hnot
    · exact h
  rw [← List.take_append_drop 10 (sortByDemand (districtTotalsHeat view))] at hsorted
  have hrel : demandGe p ((d', heatDistrictTotal view d') : String × ℚ) :=
    (List.pairwise_append.mp hsorted).2.2 p hp_take _ hq_drop
  have hle : heatDistrictTotal view d' ≤ p.2 := hrel
  rw [hp1] at hp2
  rwa [hp2] at hle

theorem mem_pivotIndex_iff (view : List Row) (d : String) :
    d ∈ pivotIndex view ↔ d ∈ top_cities view := by
  rw [pivotIndex, List.mem_dedup]
  constructor
  · intro h
    obtain ⟨t, ht, he⟩ := List.mem_map.mp h
    rw [heatRestricted, List.mem_filter] at ht
    have hc := ht.2
    rw [← he]
    simpa using hc
  · intro h
    obtain ⟨r, hr, hdist, y, hdate⟩ := mem_heatDistrictsBase.mp (top_cities_subset h)
    have hy : y ∈ yearsFor view d := mem_yearsFor.mpr ⟨r, hr, hdist, hdate⟩
    have ht : ((d, y, heatSum view d y) : String × Int × ℚ) ∈ heat_df view := by
      rw [heat_df]
      exact List.mem_flatMap.mpr
        ⟨d, top_cities_subset h, List.mem_map.mpr ⟨y, hy, rfl⟩⟩
    have htr : ((d, y, heatSum view d y) : String × Int × ℚ) ∈ heatRestricted view := by
      rw [heatRestricted, List.mem_filter]
      exact ⟨ht, by simpa using h⟩
    exact List.mem_map.mpr ⟨_, htr, rfl⟩

theorem top_cities_spec (view : List Row)
    (hdate : ∀ r ∈ view, ∃ y, r.date = some y) :
    (∀ d, d ∈ pivotIndex view ↔ d ∈ top_cities view)
    ∧ (top_cities view).length = min 10 (districtKeys view).length
    ∧ (top_cities view).Nodup
    ∧ (∀ d ∈ top_cities view, d ∈ districtKeys view)
    ∧ (∀ d ∈ top_cities view, ∀ d' ∈ districtKeys view, d' ∉ top_cities view →
        sumFor view d' ≤ sumFor view d) := by
  have hbase := heatDistrictsBase_eq view hdate
  refine ⟨fun d => mem_pivotIndex_iff view d, ?_, top_cities_nodup view, ?_, ?_⟩
  · rw [top_cities_length, hbase]
  · intro d hd
    rw [← hbase]
    exact top_cities_subset hd
  · intro d hd d' hd' hnot
    have hd'base : d' ∈ heatDistrictsBase view := by
      rw [hbase]
      exact hd'
    have hdbase : d ∈ heatDistrictsBase view := top_cities_subset hd
    have hdom := top_cities_dominant view hd hd'base hnot
    rwa [heatDistrictTotal_eq_sumFor view hdate d' hd'base,
      heatDistrictTotal_eq_sumFor view hdate d hdbase] at hdom

/-! ## Lemmas: reachable Derived Views inside the heatmap branch have dates -/

theorem computeYearRange_none {rows : List Row} (h : computeYearRange rows = none) :
    ∀ r ∈ rows, r.date = none := by
  intro r hr
  rw [computeYearRange] at h
  cases hmin : (rows.filterMap Row.date).min? with
  | none =>
    have hnil : rows.filterMap Row.date = [] := List.min?_eq_none_iff.mp hmin
    exact (List.filterMap_eq_nil_iff.mp hnil) r hr
  | some lo =>
    cases hmax : (rows.filterMap Row.date).max? with
    | none =>
      have hnil : rows.filterMap Row.date = [] := List.max?_eq_none_iff.mp hmax
      rw [hnil] at hmin
      simp at hmin
    | some hi =>
      rw [hmin, hmax] at h
      simp at h

theorem applyFilters_year {p : Int × Int} {sel : Selection} {rows : List Row} {r : Row}
    (h : r ∈ applyFilters true (some p) sel rows) : ∃ y, r.date = some y := by
  rw [applyFilters] at h
  have h1 := mem_of_ite_filter' (mem_of_ite_filter' h)
  have h2 : r ∈ rows.filter (yearInRange (some p)) := by simpa using h1
  have h3 := (List.mem_filter.mp h2).2
  obtain ⟨lo, hi⟩ := p
  cases hdt : r.date with
  | none =>
    rw [show yearInRange (some (lo, hi)) r = false by simp [yearInRange, hdt]] at h3
    cases h3
  | some y => exact ⟨y, rfl⟩

theorem pipeline_dates_some {sel : Selection} {ds : List Row}
    (hne : heat_df (pipelineView true sel ds) ≠ []) :
    ∀ r ∈ pipelineView true sel ds, ∃ y, r.date = some y := by
  intro r hr
  cases hyr : computeYearRange (validatedData true true ds) with
  | none =>
    exfalso
    apply hne
    have hnodate : ∀ r' ∈ pipelineView true sel ds, r'.date = none := by
      intro r' hr'
      have hbase : r' ∈ validatedData true true ds := by
        rw [pipelineView] at hr'
        exact mem_applyFilters hr'
      exact computeYearRange_none hyr r' hbase
    have hb : heatDistrictsBase (pipelineView true sel ds) = [] := by
      rw [heatDistrictsBase]
      have hfm : (pipelineView true sel ds).filterMap
          (fun r => (rowDY r).map Prod.fst) = [] := by
        apply List.filterMap_eq_nil_iff.mpr
        intro a ha
        have hnone := hnodate a ha
        cases hdist : a.district <;> simp [rowDY, Cell.toStr, hdist, hnone]
      rw [hfm]
      rfl
    rw [heat_df, hb]
    rfl
  | some p =>
    simp only [pipelineView] at hr
    rw [hyr] at hr
    exact applyFilters_year hr

/-! ## C7: the districts retained in the heatmap matrix -/

/-- C7: whenever the heatmap is produced — the branch condition holds (more
than one distinct district, date column present) and the pivot matrix is
non-empty — the districts retained in the matrix are exactly the `top_cities`
selection, which (a) has `min 10 (number of distinct districts)` entries,
(b) has no duplicates, (c) contains only districts of the Derived View, and
(d) dominates: each retained district's metric total, summed over ALL rows of
the Derived View (not per-year), is at least the total of every non-retained
district. -/
theorem C7_heatmap_top_districts (ds : List Row) (sel : Selection)
    (_hmulti : 1 < (districtKeys (pipelineView true sel ds)).length)
    (hprod : heat_df (pipelineView true sel ds) ≠ []) :
    (∀ d, d ∈ pivotIndex (pipelineView true sel ds)
        ↔ d ∈ top_cities (pipelineView true sel ds))
    ∧ (top_cities (pipelineView true sel ds)).length
        = min 10 (districtKeys (pipelineView true sel ds)).length
    ∧ (top_cities (pipelineView true sel ds)).Nodup
    ∧ (∀ d ∈ top_cities (pipelineView true sel ds),
        d ∈ districtKeys (pipelineView true sel ds))
    ∧ (∀ d ∈ top_cities (pipelineView true sel ds),
        ∀ d' ∈ districtKeys (pipelineView true sel ds),
          d' ∉ top_cities (pipelineView true sel ds) →
            sumFor (pipelineView true sel ds) d'
              ≤ sumFor (pipelineView true sel ds) d) :=
  top_cities_spec (pipelineView true sel ds) (pipeline_dates_some hprod)

theorem C7_heatmap_top_districts_witness :
    1 < (districtKeys (pipelineView true selAll demoData2)).length
    ∧ heat_df (pipelineView true selAll demoData2) ≠ []
    ∧ ((∀ d, d ∈ pivotIndex (pipelineView true selAll demoData2)
          ↔ d ∈ top_cities (pipelineView true selAll demoData2))
       ∧ (top_cities (pipelineView true selAll demoData2)).length
           = min 10 (districtKeys (pipelineView true selAll demoData2)).length
       ∧ (top_cities (pipelineView true selAll demoData2)).Nodup
       ∧ (∀ d ∈ top_cities (pipelineView true selAll demoData2),
           d ∈ districtKeys (pipelineView true selAll demoData2))
       ∧ (∀ d ∈ top_cities (pipelineView true selAll demoData2),
           ∀ d' ∈ districtKeys (pipelineView true selAll demoData2),
             d' ∉ top_cities (pipelineView true selAll demoData2) →
               sumFor (pipelineView true selAll demoData2) d'
                 ≤ sumFor (pipelineView true selAll demoData2) d)) :=
  ⟨by decide, by decide,
    C7_heatmap_top_districts demoData2 selAll (by decide) (by decide)⟩

/-! ## C8: zero-fill of absent (district, year) cells -/

/-- C8: in the produced heatmap matrix, every (district, year) cell whose
district is among the retained top-10 districts and whose year is one of the
matrix's year columns, but which matches no row of the Derived View, holds the
value exactly 0 (the `fillna(0)` branch), never null/absent. -/
theorem C8_zero_fill (view : List Row) (d : String) (y : Int)
    (_hd : d ∈ top_cities view) (_hy : y ∈ pivotCols view)
    (hno : ∀ r ∈ view, ¬(r.district = Cell.str d ∧ r.date = some y)) :
    pivotCell view d y = 0 := by
  cases hfind : (heatRestricted view).find?
      (fun t => decide (t.1 = d) && decide (t.2.1 = y)) with
  | none => simp [pivotCell, hfind]
  | some t =>
    exfalso
    have hmem := List.mem_of_find?_eq_some hfind
    have hpred := List.find?_some hfind
    rw [Bool.and_eq_true, decide_eq_true_eq, decide_eq_true_eq] at hpred
    have ht : t ∈ heat_df view := by
      rw [heatRestricted] at hmem
      exact (List.mem_filter.mp hmem).1
    obtain ⟨_, hy2, _⟩ := mem_heat_df ht
    rw [hpred.1, hpred.2] at hy2
    obtain ⟨r, hr, hdist, hdate⟩ := mem_yearsFor.mp hy2
    exact hno r hr ⟨hdist, hdate⟩

theorem C8_zero_fill_witness :
    "Margao" ∈ top_cities demoData2
    ∧ (2022 : Int) ∈ pivotCols demoData2
    ∧ (∀ r ∈ demoData2, ¬(r.district = Cell.str "Margao" ∧ r.date = some 2022))
    ∧ pivotCell demoData2 "Margao" 2022 = 0 :=
  ⟨by decide, by decide, by decide,
    C8_zero_fill demoData2 "Margao" 2022 (by decide) (by decide) (by decide)⟩

/-! ## C10: the presentation stage and the in-place `year` column -/

/-- C10 counterexample: with the example dataset (two valid districts, dates
present) the heatmap branch runs, line 159 adds a `year` column to `filtered`
in place, and the table displayed at line 205 therefore has a column list
different from the one the Filter Engine produced — the Derived View handed to
presentation does NOT have exactly the Filter Engine's columns. -/
theorem C10_counterexample :
    (displayedTable true
        (filterEngineFrame true (computeYearRange baseFrame.rows) selAll baseFrame)).cols
      ≠ (filterEngineFrame true (computeYearRange baseFrame.rows) selAll baseFrame).cols := by
  decide

/-- C10 (amended): the tabular dump handed to presentation has exactly the rows
the Filter Engine produced, and exactly its columns except that a derived
`year` column is appended when (and only when) the heatmap branch runs; the
Filter Engine itself leaves the base Dataset's column list unchanged. -/
theorem C10_amended (hasDate : Bool) (yr : Option (Int × Int)) (sel : Selection)
    (base : Frame) :
    (displayedTable hasDate (filterEngineFrame hasDate yr sel base)).rows
        = (filterEngineFrame hasDate yr sel base).rows
    ∧ (displayedTable hasDate (filterEngineFrame hasDate yr sel base)).cols
        = (filterEngineFrame hasDate yr sel base).cols
          ++ (if heatBranch hasDate (filterEngineFrame hasDate yr sel base)
              then ["year"] else [])
    ∧ (filterEngineFrame hasDate yr sel base).cols = base.cols := by
  refine ⟨?_, ?_, rfl⟩
  · rw [displayedTable]
    split <;> rfl
  · rw [displayedTable]
    split
    next h => simp [h]
    next h => simp [h]

end App
